import Mathlib

/-!
Verification development for the App Store analytics exporter
(`src/app-store-exporter/exporter.py`).

The Python pipeline is shallowly embedded: parsed CSV rows become
association lists from column names to string values, the metric store
becomes a function from composite keys to optional (value, timestamp)
entries, and external collaborators (Python's `float` parsing, `codecs`
decoding, `datetime` arithmetic) become explicit oracle parameters.
Every definition mirrors the corresponding function in `exporter.py`;
line numbers in doc comments refer to that file.
-/

namespace AppStoreExporter

/-! ### Executable string primitives

Python's string operations (`strip`, `lower`, `replace`, `startswith`,
lexicographic comparison) are modelled by explicit character-list
computations so that every definition evaluates by kernel reduction on
concrete inputs. -/

/-- Lexicographic strict comparison of character lists by code point —
the comparison Python uses between strings. -/
def charsLtB : List Char → List Char → Bool
  | _, [] => false
  | [], _ :: _ => true
  | a :: as, b :: bs =>
    if a < b then true else if b < a then false else charsLtB as bs

/-- Python's `a < b` on strings. -/
def strLtB (a b : String) : Bool := charsLtB a.toList b.toList

/-- Python's `a <= b` on strings (the order is total, so `a <= b`
is `not (b < a)`). -/
def strLeB (a b : String) : Bool := !strLtB b a

/-- The `<=` comparison as a relation, for use as a sorting order. -/
abbrev strLeP (a b : String) : Prop := strLeB a b = true

/-- The characters Python's `str.strip()` removes (the whitespace
occurring in this data: space, tab, CR, LF). -/
def isStripChar (c : Char) : Bool := c = ' ' || c = '\t' || c = '\n' || c = '\r'

/-- Python's `s.strip()`: drop leading and trailing whitespace. -/
def pyStrip (s : String) : String :=
  String.mk (((s.toList.dropWhile isStripChar).reverse.dropWhile isStripChar).reverse)

/-- Python's `s.replace(",", "")`, the only `replace` the exporter uses:
remove every comma. -/
def removeCommas (s : String) : String :=
  String.mk (s.toList.filter (fun c => !(c = ',')))

/-- Python's `s.lower()` (ASCII case folding, which covers the report
catalog's names). -/
def pyLower (s : String) : String := String.mk (s.toList.map Char.toLower)

/-- Python's `k.startswith("__")`, the metadata-column test. -/
def isMetaCol (k : String) : Bool :=
  match k.toList with
  | '_' :: '_' :: _ => true
  | _ => false

/-- A parsed CSV row as produced by `_parse_csv_bytes` (lines 750-798): a
Python dict from column name to string value, modelled as an association
list whose order is the dict's insertion order.  Metadata columns
(`__segment_id`, `__segment_start`, `__segment_end`) live alongside the
CSV columns. -/
abbrev Row := List (String × String)

/-- Python's `row.get(k)`: the value of the first binding of `k`, if any. -/
def getCol (r : Row) (k : String) : Option String :=
  (r.find? (fun p => p.1 = k)).map (·.2)

/-- The column names of a row, in insertion order (`row.keys()`). -/
def keysOf (r : Row) : List String := r.map (·.1)

/-- Lexicographic comparison of (key, value) pairs, matching how Python's
`sorted(row.items())` orders dict items. -/
def pairLeB (p q : String × String) : Bool :=
  strLtB p.1 q.1 || (p.1 = q.1 && strLeB p.2 q.2)

/-- The pair comparison as a relation, for use as a sorting order. -/
abbrev pairLeP (p q : String × String) : Prop := pairLeB p q = true

/-- Python's `"sep".join xs`. -/
def joinWith (sep : String) (xs : List String) : String :=
  String.intercalate sep xs

/-! ### Segment decoder text-encoding selection (`_parse_csv_bytes`, lines 750-763) -/

/-- The text encodings the decoder knows about. -/
inductive PyEncoding
  | utf8sig
  | utf8
  | utf16
  | utf16le
  | latin1
  deriving DecidableEq

/-- The encoding preference order hard-coded at line 754 of
`exporter.py`: `("utf-8-sig", "utf-8", "utf-16", "utf-16le", "latin-1")`. -/
def DECODE_ENCODINGS : List PyEncoding :=
  [.utf8sig, .utf8, .utf16, .utf16le, .latin1]

/-- Try each encoding of `order` in turn on the payload; the first
successful decode wins.  `dec` is the oracle standing for Python's
`bytes.decode`, `none` meaning the codec raised. -/
def decodeWithOrder (dec : PyEncoding → List Nat → Option String)
    (data : List Nat) (order : List PyEncoding) : Option String :=
  order.findSome? (fun e => dec e data)

/-- The decoder's text-decoding step (lines 752-763): try the encodings
in the source's order; a result of `none` corresponds to the
`UnicodeDecodeError` raised when every encoding fails. -/
def parseCsvDecodeText (dec : PyEncoding → List Nat → Option String)
    (data : List Nat) : Option String :=
  decodeWithOrder dec data DECODE_ENCODINGS

/-- Modelled from the spec: the claimed preference order
"UTF-16, UTF-16LE, UTF-8 with BOM, UTF-8, Latin-1" (spec section 4.1),
to be compared with `DECODE_ENCODINGS`. -/
def specEncodingOrder : List PyEncoding :=
  [.utf16, .utf16le, .utf8sig, .utf8, .latin1]

/-- Modelled from the spec: first-success decoding over the spec's
claimed encoding order. -/
def specDecodeText (dec : PyEncoding → List Nat → Option String)
    (data : List Nat) : Option String :=
  decodeWithOrder dec data specEncodingOrder

/-! ### Report catalog resolver (`_find_report_id`, lines 419-489) -/

/-- One entry of the cached report catalog (lines 443-451). -/
structure ReportItem where
  id : String
  name : String
  category : String
  deriving DecidableEq

/-- Name resolution over a fetched catalog (lines 460-485): the requested
name is stripped; a whitespace-only request yields no candidates; the
single candidate is matched case-insensitively and exactly against each
catalog entry's name, first match wins.  `none` models the logged-and-
skipped "not found" outcome (the function returns `None`, never raises). -/
def findReportId (items : List ReportItem) (namePattern : String) : Option String :=
  let candidates := if pyStrip namePattern ≠ "" then [pyStrip namePattern] else []
  candidates.findSome? (fun c =>
    (items.find? (fun it => pyLower it.name = pyLower c)).map (·.id))

/-! ### Instance window filtering (lines 983-990 and 519-533) -/

/-- A report instance as consumed by the exporter: the `id` plus the
`attributes.granularity` and `attributes.processingDate` fields (missing
attributes become `""`, per the `or ""` guards in the source). -/
structure ReportInstance where
  id : String
  processingDate : String
  granularity : String
  deriving DecidableEq

/-- The lookback-window filter of `_process_analytics_data`
(lines 984-990): keep instances with `processingDate[:10] >= cutoff_iso`
(ISO-8601 strings compare like dates). -/
def wantedInstances (cutoffIso : String) (insts : List ReportInstance) :
    List ReportInstance :=
  insts.filter (fun i => !strLtB (i.processingDate.take 10) cutoffIso)

/-- The scanner filter of `_find_freshest_instance` (lines 519-533):
first a local granularity check, then the same lookback-window filter. -/
def freshestWanted (granularity cutoffIso : String)
    (insts : List ReportInstance) : List ReportInstance :=
  wantedInstances cutoffIso (insts.filter (fun i => i.granularity = granularity))

/-! ### Calendar dates and their ISO rendering

The cutoff string is produced by Python's
`(date.today() - timedelta(days=lookback)).isoformat()`; `datetime` is
external, so ISO formatting of a calendar date is modelled here, and its
compatibility with the string comparison used by the filter is proved.  -/

/-- A calendar date. -/
structure CalDate where
  year : Nat
  month : Nat
  day : Nat
  deriving DecidableEq

/-- Validity bounds under which `isoOfDate` matches Python's
`date.isoformat` (years are rendered with four digits). -/
def CalDate.Valid (d : CalDate) : Prop :=
  d.year < 10000 ∧ 1 ≤ d.month ∧ d.month ≤ 12 ∧ 1 ≤ d.day ∧ d.day ≤ 31

instance (d : CalDate) : Decidable d.Valid := by
  unfold CalDate.Valid; infer_instance

/-- Strict calendar order on dates. -/
def CalDate.olderThan (a b : CalDate) : Prop :=
  a.year < b.year ∨ (a.year = b.year ∧
    (a.month < b.month ∨ (a.month = b.month ∧ a.day < b.day)))

instance (a b : CalDate) : Decidable (a.olderThan b) := by
  unfold CalDate.olderThan; infer_instance

/-- The decimal digit character for `n % 10`-style digits. -/
def digitChar (n : Nat) : Char := Char.ofNat (48 + n)

/-- Big-endian fixed-width decimal rendering: `padChars w n` is the
`w`-character zero-padded decimal form of `n` (for `n < 10 ^ w`). -/
def padChars : Nat → Nat → List Char
  | 0, _ => []
  | w + 1, n => digitChar (n / 10 ^ w) :: padChars w (n % 10 ^ w)

/-- ISO-8601 rendering `YYYY-MM-DD` of a calendar date, modelling
Python's `date.isoformat()`. -/
def isoOfDate (d : CalDate) : String :=
  String.mk (padChars 4 d.year ++ '-' :: padChars 2 d.month ++ '-' :: padChars 2 d.day)

/-! ### Numeric value extraction (`_extract_number`, lines 868-875) -/

/-- The string cleanup applied before parsing: `value.replace(",", "").strip()`. -/
def pyCleanNumber (s : String) : String := pyStrip (removeCommas s)

/-- `_extract_number`: empty or missing input yields `0.0`; otherwise the
cleaned string is parsed by the `parseFloat` oracle (Python's `float`),
with `0.0` on a `ValueError`.  Values are modelled as rationals. -/
def extractNumber (parseFloat : String → Option ℚ) (value : Option String) : ℚ :=
  match value with
  | none => 0
  | some s =>
    if s = "" then 0
    else match parseFloat (pyCleanNumber s) with
      | some q => q
      | none => 0

/-! ### Metric store and `_export_metrics` (lines 878-908) -/

/-- The composite key tuple
`(metric_name, package, label1_value, ..., date)` built at lines 894-904. -/
abbrev MetricKey := List String

/-- The process-wide `_metrics_data` dict: composite key to
(value, timestamp in milliseconds). -/
abbrev MetricStore := MetricKey → Option (ℚ × Int)

/-- The fields of one `METRICS` configuration entry that
`_export_metrics` consumes: the internal key, the Prometheus name and
the ordered label-name-to-column mapping. -/
structure MetricConfig where
  key : String
  promName : String
  labels : List (String × String)
  deriving DecidableEq

/-- The config lookup `next((m for m in METRICS if m["key"] == metric_name), None)`. -/
def findMetricConfig (metrics : List MetricConfig) (name : String) :
    Option MetricConfig :=
  metrics.find? (fun m => m.key = name)

/-- Key construction of lines 894-904: Prometheus name, then the app
name, then each configured label's source-column value (missing columns
become `""`), then the row date. -/
def buildMetricKey (m : MetricConfig) (appName : String) (row : Row)
    (rowDate : String) : MetricKey :=
  m.promName :: appName :: (m.labels.map (fun lp => (getCol row lp.2).getD "")) ++ [rowDate]

/-- Timestamp computation of lines 880-890: midnight of the parsed row
date, falling back to midnight of "today" when parsing fails.  The
`datetime` library is abstracted into the `parseDateMs` oracle and the
`todayMs` fallback. -/
def computeTimestampMs (parseDateMs : String → Option Int) (todayMs : Int)
    (rowDate : String) : Int :=
  (parseDateMs rowDate).getD todayMs

/-- `_export_metrics` (lines 878-908): look up the metric config by
internal key; when found, unconditionally overwrite the store entry at
the composite key with `(value, timestamp)`; when not found, leave the
store unchanged. -/
def exportMetrics (metrics : List MetricConfig)
    (parseDateMs : String → Option Int) (todayMs : Int)
    (appName : String) (row : Row) (metricName : String) (value : ℚ)
    (rowDate : String) (store : MetricStore) : MetricStore :=
  match findMetricConfig metrics metricName with
  | none => store
  | some m =>
    let ts := computeTimestampMs parseDateMs todayMs rowDate
    let key := buildMetricKey m appName row rowDate
    fun k => if k = key then some (value, ts) else store k

/-- The exposition-time value gate of `_format_prometheus_output`
(lines 212-214): `if value <= 0: continue` — an entry is rendered only
when its value is strictly positive. -/
def promValueIncluded (v : ℚ) : Bool := !decide (v ≤ 0)

/-! ### Health state machine (`_run_metrics_collection`, lines 1304-1360) -/

/-- The `_health_state` record (lines 115-120).  Wall-clock values are
abstract naturals supplied per cycle. -/
structure HealthState where
  healthy : Bool
  lastSuccessfulCollection : Option Nat
  lastError : Option String
  collectionsCount : Nat
  deriving DecidableEq

/-- The initial `_health_state` (lines 115-120). -/
def initialHealthState : HealthState :=
  { healthy := false
    lastSuccessfulCollection := none
    lastError := none
    collectionsCount := 0 }

/-- One cycle's health update (lines 1331-1350).  `appErrors` holds one
entry per configured app: `none` when `_process_app_metrics` succeeded,
`some msg` when it raised and the message was appended to
`collection_errors`.  A cycle with no errors, or with fewer errors than
apps, marks the state healthy; a cycle in which every app failed leaves
`healthy` untouched and only records the error message. -/
def runCollectionHealth (now : Nat) (appErrors : List (Option String))
    (h : HealthState) : HealthState :=
  let errors := appErrors.filterMap id
  let h1 := { h with collectionsCount := h.collectionsCount + 1 }
  if errors.isEmpty then
    { h1 with healthy := true, lastSuccessfulCollection := some now, lastError := none }
  else
    let h2 :=
      if errors.length < appErrors.length then
        { h1 with healthy := true, lastSuccessfulCollection := some now }
      else h1
    { h2 with lastError := some ("Failed to collect metrics for " ++
        toString errors.length ++ "/" ++ toString appErrors.length ++ " apps") }

/-- A sequence of collection cycles, each a timestamp plus per-app
outcomes, folded through the health update — the loop of
`_background_collection` (lines 1406-1416), in which per-app failures
are already caught inside `_run_metrics_collection`. -/
def runCollectionCycles (cycles : List (Nat × List (Option String)))
    (h : HealthState) : HealthState :=
  cycles.foldl (fun h c => runCollectionHealth c.1 c.2 h) h

/-- A cycle in which every configured app failed (and there was at least
one app — the exporter refuses to start with an empty app list,
lines 92-96). -/
def TotalFailureCycle (appErrors : List (Option String)) : Prop :=
  appErrors ≠ [] ∧ ∀ a ∈ appErrors, a ≠ none

instance (aes : List (Option String)) : Decidable (TotalFailureCycle aes) := by
  unfold TotalFailureCycle; infer_instance

/-! ### The candidate-report processing pipeline
(`_process_analytics_data`, lines 914-1248) -/

/-- The cross-instance full-row deduplication key of lines 1030-1035:
`"|".join(f"{k}={v}" for k, v in sorted(row.items()) if not k.startswith("__"))`. -/
def rowIdentKey (r : Row) : String :=
  joinWith "|"
    (((List.insertionSort pairLeP r).filter
        (fun p => !isMetaCol p.1)).map (fun p => p.1 ++ "=" ++ p.2))

/-- One step of the global cross-instance deduplication (lines 1029-1039):
state is the `global_seen_keys` set (as a list) plus the accumulated
`all_rows`; a row whose full-row key was already seen is dropped. -/
def dedupStep (st : List String × List Row) (r : Row) : List String × List Row :=
  let k := rowIdentKey r
  if k ∈ st.1 then st else (st.1 ++ [k], st.2 ++ [r])

/-- The instance-aggregation loop of lines 1007-1046: for each instance's
rows in turn, keep only rows whose full-row key is globally unseen. -/
def aggregateRows (instRows : List (List Row)) : List Row :=
  (instRows.foldl (fun st rows => rows.foldl dedupStep st) ([], [])).2

/-- Pool rows from all instances in the window: instances are first
sorted ascending by `processingDate` (lines 1011-1014), then aggregated
with global full-row deduplication.  Each instance is a
(processingDate, downloaded rows) pair. -/
def poolInstanceRows (insts : List (String × List Row)) : List Row :=
  aggregateRows
    ((List.insertionSort (fun a b : String × List Row => strLeP a.1 b.1) insts).map (·.2))

/-- The per-metric pipeline configuration drawn from the `METRICS` entry:
the configured value column (`value_patterns[0]` when present, line 1063),
the label source columns (`metric_config["labels"].values()`,
lines 1117-1120), and the optional row filter (lines 1129-1133). -/
structure PipelineConfig where
  valueCol : Option String
  labelCols : List String
  rowFilter : Option (String × String)

/-- The label-completeness check of lines 1112-1128: every configured
label's source column must be present and non-empty. -/
def labelsComplete (labelCols : List String) (r : Row) : Bool :=
  labelCols.all (fun f =>
    match getCol r f with
    | some v => !(v = "")
    | none => false)

/-- The row-filter check of lines 1129-1133: when a filter column is
configured (non-empty), the row's value there must equal the configured
value exactly (a missing column never matches). -/
def matchesRowFilter (rf : Option (String × String)) (r : Row) : Bool :=
  match rf with
  | none => true
  | some (c, v) => if c = "" then true else decide (getCol r c = some v)

/-- The filtering pass of lines 1106-1135 building `filtered_rows`. -/
def filteredRowsOf (cfg : PipelineConfig) (rows : List Row) : List Row :=
  rows.filter (fun r => labelsComplete cfg.labelCols r && matchesRowFilter cfg.rowFilter r)

/-- The schema signature of a row (lines 1148-1150): the sorted tuple of
its non-metadata column names. -/
def schemaSig (r : Row) : List String :=
  List.insertionSort strLeP ((keysOf r).filter (fun k => !isMetaCol k))

/-- Insert a row into the insertion-ordered `rows_by_schema` dict
(lines 1151-1153). -/
def addToGroup : List (List String × List Row) → List String → Row →
    List (List String × List Row)
  | [], s, r => [(s, [r])]
  | (t, rs) :: rest, s, r =>
    if t = s then (t, rs ++ [r]) :: rest
    else (t, rs) :: addToGroup rest s r

/-- Group the filtered rows by schema signature (lines 1146-1153),
preserving both first-appearance group order and row order. -/
def groupBySchema (rows : List Row) : List (List String × List Row) :=
  rows.foldl (fun gs r => addToGroup gs (schemaSig r) r) []

/-- Line 1053: after pooling rows from multiple instances the
`processing_date` variable is reset to the empty string, so the
instance-processing-date fallback in the effective-date chain below is
always empty. -/
def aggProcessingDate : String := ""

/-- Python's `a or b` for an optional string `a`: `b` when `a` is
missing or empty. -/
def pyOrOpt (a : Option String) (b : String) : String :=
  match a with
  | none => b
  | some s => if s = "" then b else s

/-- Python's `a or b` for a plain string `a`. -/
def pyOrStr (a b : String) : String := if a = "" then b else a

/-- The effective-date computation of lines 1172-1178:
`(row.get("Date") or row.get("Processing Date") or
row.get("__segment_start") or processing_date or "").strip()[:10]`. -/
def dateValOf (processingDateVar : String) (r : Row) : String :=
  (pyStrip (pyOrOpt (getCol r "Date")
    (pyOrOpt (getCol r "Processing Date")
      (pyOrOpt (getCol r "__segment_start")
        (pyOrStr processingDateVar ""))))).take 10

/-- The effective date as the pipeline actually computes it, with the
`processing_date` variable already reset by line 1053. -/
def dateValOfRow (r : Row) : String := dateValOf aggProcessingDate r

/-- Modelled from the spec (section 4.5 step 3): the claimed
effective-date chain ending in the *instance's* processing date. -/
def specDateVal (instProcessingDate : String) (r : Row) : String :=
  dateValOf instProcessingDate r

/-- The `column=value` dimension strings of lines 1181-1185, iterating
the (already sorted) schema columns and skipping the value column and
metadata columns. -/
def dimensionKeys (vcol : String) (schemaCols : List String) (r : Row) : List String :=
  (schemaCols.filter (fun c => !(c = vcol) && !isMetaCol c)).map
    (fun c => c ++ "=" ++ pyStrip ((getCol r c).getD ""))

/-- The per-row deduplication key of line 1187:
`f"{date_val}_" + "_".join(sorted(dimension_keys))`. -/
def uniqueKeyOf (vcol : String) (schemaCols : List String) (r : Row) : String :=
  dateValOfRow r ++ "_" ++
    joinWith "_" (List.insertionSort strLeP (dimensionKeys vcol schemaCols r))

/-- One deduplicated, exported sample: the source row, the extracted
value and the effective date passed to `_export_metrics` (line 1206). -/
structure ExportItem where
  row : Row
  value : ℚ
  dateVal : String
  deriving DecidableEq

/-- The state of one schema group's dedup-and-export loop: exported
samples, rows suppressed as duplicates, and the `schema_seen_keys` set. -/
structure GroupResult where
  exports : List ExportItem
  duplicates : List Row
  seen : List String
  deriving DecidableEq

/-- One iteration of the per-schema-group loop (lines 1166-1216): skip
rows with a missing/empty value column; compute the dedup key; suppress
already-seen keys as duplicates; otherwise claim the key, then extract
the value and export it unless it is negative. -/
def processGroupStep (parseFloat : String → Option ℚ) (valueCol : Option String)
    (schemaCols : List String) (st : GroupResult) (r : Row) : GroupResult :=
  match valueCol with
  | none => st
  | some vcol =>
    if vcol = "" then st
    else
      match getCol r vcol with
      | none => st
      | some v =>
        if v = "" then st
        else if uniqueKeyOf vcol schemaCols r ∈ st.seen then
          { st with duplicates := st.duplicates ++ [r] }
        else if extractNumber parseFloat (some v) < 0 then
          { st with seen := st.seen ++ [uniqueKeyOf vcol schemaCols r] }
        else
          { st with
            exports := st.exports ++
              [⟨r, extractNumber parseFloat (some v), dateValOfRow r⟩]
            seen := st.seen ++ [uniqueKeyOf vcol schemaCols r] }

/-- Process one schema group (lines 1156-1216) starting from a fresh
seen-key set. -/
def processSchemaGroup (parseFloat : String → Option ℚ) (valueCol : Option String)
    (schemaCols : List String) (rows : List Row) : GroupResult :=
  rows.foldl (processGroupStep parseFloat valueCol schemaCols) ⟨[], [], []⟩

/-- The full per-candidate pipeline of `_process_analytics_data` for the
rows of all instances in the window: pool with global full-row dedup,
filter, group by schema, then deduplicate and export each group with a
fresh per-group seen-key set.  Returns the exported samples (in export
order) and the rows suppressed as duplicates. -/
def processRows (parseFloat : String → Option ℚ) (cfg : PipelineConfig)
    (insts : List (String × List Row)) : List ExportItem × List Row :=
  (groupBySchema (filteredRowsOf cfg (poolInstanceRows insts))).foldl
    (fun acc g =>
      (acc.1 ++ (processSchemaGroup parseFloat cfg.valueCol g.1 g.2).exports,
       acc.2 ++ (processSchemaGroup parseFloat cfg.valueCol g.1 g.2).duplicates))
    ([], [])

/-- The claim-level Dimensional Key of a row: its effective date plus
the (multiset of) `(column, value)` pairs over the non-value,
non-metadata columns — "the same sorted column=value pairs" of the spec,
with pair values trimmed exactly as the code trims them. -/
def claimDimKey (vcol : String) (r : Row) : String × Multiset (String × String) :=
  (dateValOfRow r,
    (((keysOf r).filter (fun c => !isMetaCol c && !(c = vcol))).map
      (fun c => (c, pyStrip ((getCol r c).getD ""))) : List (String × String)))

/-- The deduplication identity a row is effectively subject to: the
schema group it is routed to, together with the in-group key string. -/
def effectiveDedupKey (vcol : String) (r : Row) : List String × String :=
  (schemaSig r, uniqueKeyOf vcol (schemaSig r) r)

/-! ### Invariants used to reason about the per-group loop -/

/-- A row's configured value column is present with non-empty content —
the condition under which the loop of lines 1166-1216 does not skip the
row outright. -/
def HasValue (vcol : String) (r : Row) : Prop :=
  ∃ v, getCol r vcol = some v ∧ v ≠ ""

/-- The loop invariant of the per-schema-group dedup-and-export loop,
relative to a source row pool `src`: every export originates in `src`,
carries the extracted (non-negative) value of its non-empty value column
and the row's effective date; export keys are pairwise distinct and all
recorded in the seen set; every seen key was claimed by a source row
whose value column is non-empty; and every suppressed duplicate is a
source row whose key was claimed by such a row. -/
def GroupInv (pf : String → Option ℚ) (vcol : String) (sc : List String)
    (src : List Row) (st : GroupResult) : Prop :=
  (∀ e ∈ st.exports, e.row ∈ src ∧
    (∃ v, getCol e.row vcol = some v ∧ v ≠ "" ∧ e.value = extractNumber pf (some v)) ∧
    0 ≤ e.value ∧ e.dateVal = dateValOfRow e.row) ∧
  (st.exports.map (fun e => uniqueKeyOf vcol sc e.row)).Nodup ∧
  (∀ e ∈ st.exports, uniqueKeyOf vcol sc e.row ∈ st.seen) ∧
  (∀ k ∈ st.seen, ∃ c ∈ src, HasValue vcol c ∧ uniqueKeyOf vcol sc c = k) ∧
  (∀ d ∈ st.duplicates, d ∈ src ∧
    ∃ c ∈ src, HasValue vcol c ∧ uniqueKeyOf vcol sc c = uniqueKeyOf vcol sc d)

/-! ### Concrete fixtures used to instantiate theorems -/

/-- A concrete `float`-parsing oracle covering the literals used in the
concrete runs below. -/
def cexParseFloat : String → Option ℚ := fun s =>
  if s = "5" then some 5
  else if s = "7" then some 7
  else if s = "-5" then some (-5)
  else none

/-- A pipeline configuration with value column `Counts`, no labels and
no row filter. -/
def cexCfg : PipelineConfig := ⟨some "Counts", [], none⟩

/-- A row whose value column holds a negative count. -/
def cexRowNeg : Row := [("Territory", "US"), ("Counts", "-5")]

/-- A row with the same dimensions as `cexRowNeg` but a positive count. -/
def cexRowPos : Row := [("Territory", "US"), ("Counts", "7")]

/-- A simple positive row. -/
def cexRowA : Row := [("Territory", "US"), ("Counts", "5")]

/-- A positive row with a different territory than `cexRowA`. -/
def cexRowB : Row := [("Territory", "DE"), ("Counts", "7")]

/-- A row whose single dimension value embeds a `_b=2` substring,
colliding with `cexRowColl2`'s joined dimension string. -/
def cexRowColl1 : Row := [("a", "1_b=2"), ("Counts", "5")]

/-- A row over different columns whose `column=value` substrings join to
the same string as `cexRowColl1`'s. -/
def cexRowColl2 : Row := [("a", "1"), ("b", "2"), ("Counts", "5")]

/-- A genuine duplicate of `cexRowColl1`'s dimensional key (only the
value differs). -/
def cexRowColl3 : Row := [("a", "1_b=2"), ("Counts", "7")]

/-- A row whose `b` value embeds `|c=3`, so that its full-row pooling
key collides with `cexRowPool2`'s. -/
def cexRowPool1 : Row := [("a", "1"), ("b", "2|c=3"), ("Counts", "5")]

/-- A row over a different column set whose `column=value` substrings
join to the same `|`-separated full-row key as `cexRowPool1`'s. -/
def cexRowPool2 : Row := [("a", "1"), ("b", "2"), ("c", "3"), ("Counts", "5")]

/-- The report catalog of end-to-end scenario B. -/
def cexCatalog : List ReportItem :=
  [⟨"r1", "App Downloads Standard", "ANALYTICS"⟩,
   ⟨"r2", "App Sessions Standard", "ANALYTICS"⟩]

/-- A decode oracle matching the real behavior of the five codecs on the
two ASCII bytes `"ab"`: the UTF-8 family and Latin-1 decode them as
`"ab"`, while UTF-16 (defaulting to little-endian without a BOM) decodes
them as the single CJK character U+6261. -/
def cexDecoder : PyEncoding → List Nat → Option String := fun e _ =>
  match e with
  | .utf8sig => some "ab"
  | .utf8 => some "ab"
  | .utf16 => some "扡"
  | .utf16le => some "扡"
  | .latin1 => some "ab"

/-- A one-entry metric configuration mirroring the first `METRICS` item
restricted to one label. -/
def cexMetrics : List MetricConfig :=
  [⟨"daily_user_installs", "appstore_daily_user_installs_v2", [("country", "Territory")]⟩]

/-- A date-parsing oracle for the concrete export runs. -/
def cexParseDateMs : String → Option Int := fun s =>
  if s = "2026-01-01" then some 1767225600000 else none

/-- The empty metric store. -/
def cexStoreEmpty : MetricStore := fun _ => none

/-- An instance one day older than the window boundary. -/
def cexInstOld : ReportInstance := ⟨"old", "2026-09-30", "DAILY"⟩

/-- An instance exactly at the window boundary. -/
def cexInstBoundary : ReportInstance := ⟨"bound", "2026-10-01", "DAILY"⟩

/-- The spec's health-transition scenario: a totally failed cycle, then
a partially successful one, then another total failure. -/
def cexCycles : List (Nat × List (Option String)) :=
  [(1, [some "boom", some "boom"]),
   (2, [none, some "boom"]),
   (3, [some "boom", some "boom"])]

/-! ## Supporting lemmas -/

theorem charsLtB_iff : ∀ l₁ l₂ : List Char, charsLtB l₁ l₂ = true ↔ List.lt l₁ l₂ := by
  intro l₁
  induction l₁ with
  | nil =>
    intro l₂
    cases l₂ with
    | nil =>
      simp only [charsLtB]
      constructor
      · intro h; cases h
      · intro h; cases h
    | cons b bs =>
      simp only [charsLtB]
      constructor
      · intro _; exact List.lt.nil b bs
      · intro _; trivial
  | cons a as ih =>
    intro l₂
    cases l₂ with
    | nil =>
      simp only [charsLtB]
      constructor
      · intro h; cases h
      · intro h; cases h
    | cons b bs =>
      simp only [charsLtB]
      by_cases hab : a < b
      · simp only [if_pos hab]
        constructor
        · intro _; exact List.lt.head as bs hab
        · intro _; trivial
      · simp only [if_neg hab]
        by_cases hba : b < a
        · simp only [if_pos hba]
          constructor
          · intro h; cases h
          · intro h
            cases h with
            | head _ _ h' => exact absurd h' hab
            | tail _ h' _ => exact absurd hba h'
        · simp only [if_neg hba]
          constructor
          · intro h; exact List.lt.tail hab hba ((ih bs).mp h)
          · intro h
            cases h with
            | head _ _ h' => exact absurd h' hab
            | tail _ _ h' => exact (ih bs).mpr h'

theorem strLtB_iff (a b : String) : strLtB a b = true ↔ a < b := by
  rw [String.lt_iff_toList_lt]
  exact (charsLtB_iff a.toList b.toList).trans (List.lt_iff_lex_lt a.toList b.toList)

theorem strLeB_iff (a b : String) : strLeB a b = true ↔ a ≤ b := by
  unfold strLeB
  rw [Bool.not_eq_true', ← Bool.not_eq_true, not_iff_comm, not_le]
  exact (strLtB_iff b a).symm

instance : IsTotal String strLeP :=
  ⟨fun a b => by
    rcases le_total a b with h | h
    · exact Or.inl ((strLeB_iff a b).mpr h)
    · exact Or.inr ((strLeB_iff b a).mpr h)⟩

instance : IsTrans String strLeP :=
  ⟨fun a b c h₁ h₂ =>
    (strLeB_iff a c).mpr (le_trans ((strLeB_iff a b).mp h₁) ((strLeB_iff b c).mp h₂))⟩

instance : IsAntisymm String strLeP :=
  ⟨fun a b h₁ h₂ => le_antisymm ((strLeB_iff a b).mp h₁) ((strLeB_iff b a).mp h₂)⟩

/-- Sorting with the string order is invariant under permutation of the input. -/
theorem insertionSort_eq_of_perm {l₁ l₂ : List String} (h : l₁.Perm l₂) :
    List.insertionSort strLeP l₁ = List.insertionSort strLeP l₂ :=
  List.eq_of_perm_of_sorted
    ((List.perm_insertionSort strLeP l₁).trans (h.trans (List.perm_insertionSort strLeP l₂).symm))
    (List.sorted_insertionSort strLeP l₁) (List.sorted_insertionSort strLeP l₂)

/-! ## Claim C8: segment text-decoding order -/

/-- C8 counterexample: the decoder does not try UTF-16 first as claimed.
On the two ASCII bytes of `"ab"` (with the oracle reproducing the real
codecs' behavior) the code's order yields `"ab"` via UTF-8-with-BOM,
whereas the spec's claimed order would yield the UTF-16 reading — so the
claimed preference order is not the implemented one. -/
theorem c8_counterexample :
    DECODE_ENCODINGS ≠ specEncodingOrder ∧
    parseCsvDecodeText cexDecoder [97, 98] = some "ab" ∧
    specDecodeText cexDecoder [97, 98] = some "扡" ∧
    parseCsvDecodeText cexDecoder [97, 98] ≠ specDecodeText cexDecoder [97, 98] := by
  refine ⟨by decide, rfl, rfl, by decide⟩

/-- C8 amended: the decoder tries the encodings in the fixed preference
order UTF-8 with BOM, UTF-8, UTF-16, UTF-16LE, Latin-1; it returns the
first successful decode, and it fails (raising `UnicodeDecodeError`)
exactly when every encoding in the list fails. -/
theorem c8_amended_decode_order (dec : PyEncoding → List Nat → Option String)
    (data : List Nat) :
    (parseCsvDecodeText dec data = none ↔ ∀ e ∈ DECODE_ENCODINGS, dec e data = none) ∧
    (∀ s, parseCsvDecodeText dec data = some s ↔
      (dec .utf8sig data = some s ∨
        (dec .utf8sig data = none ∧ (dec .utf8 data = some s ∨
          (dec .utf8 data = none ∧ (dec .utf16 data = some s ∨
            (dec .utf16 data = none ∧ (dec .utf16le data = some s ∨
              (dec .utf16le data = none ∧ dec .latin1 data = some s))))))))) := by
  simp only [parseCsvDecodeText, decodeWithOrder, DECODE_ENCODINGS]
  rcases h1 : dec .utf8sig data with _ | s1 <;>
    rcases h2 : dec .utf8 data with _ | s2 <;>
      rcases h3 : dec .utf16 data with _ | s3 <;>
        rcases h4 : dec .utf16le data with _ | s4 <;>
          rcases h5 : dec .latin1 data with _ | s5 <;>
            simp [List.findSome?_cons, List.findSome?_nil, h1, h2, h3, h4, h5]

/-! ## Claim C9: idempotent, overwriting export -/

/-- C9: `_export_metrics` writes by unconditional overwrite.  Writing
twice to the same composite key leaves the store exactly as a single
write of the later value would, the entry at that key holds the
later-written value and timestamp, and re-exporting the very same row
and value changes nothing — there is never an accumulation. -/
theorem c9_export_overwrites (metrics : List MetricConfig)
    (parseDateMs : String → Option Int) (todayMs : Int) (appName : String)
    (row₁ row₂ : Row) (name : String) (v₁ v₂ : ℚ) (d : String)
    (store : MetricStore) (m : MetricConfig)
    (hm : findMetricConfig metrics name = some m)
    (hk : buildMetricKey m appName row₁ d = buildMetricKey m appName row₂ d) :
    (exportMetrics metrics parseDateMs todayMs appName row₂ name v₂ d
        (exportMetrics metrics parseDateMs todayMs appName row₁ name v₁ d store) =
      exportMetrics metrics parseDateMs todayMs appName row₂ name v₂ d store) ∧
    (exportMetrics metrics parseDateMs todayMs appName row₂ name v₂ d
        (exportMetrics metrics parseDateMs todayMs appName row₁ name v₁ d store)
        (buildMetricKey m appName row₂ d) =
      some (v₂, computeTimestampMs parseDateMs todayMs d)) ∧
    (exportMetrics metrics parseDateMs todayMs appName row₁ name v₁ d
        (exportMetrics metrics parseDateMs todayMs appName row₁ name v₁ d store) =
      exportMetrics metrics parseDateMs todayMs appName row₁ name v₁ d store) := by
  unfold exportMetrics
  rw [hm]
  simp only
  refine ⟨?_, ?_, ?_⟩
  · funext k
    by_cases hkk : k = buildMetricKey m appName row₂ d
    · simp [hkk]
    · simp [hkk, hk]
  · simp
  · funext k
    by_cases hkk : k = buildMetricKey m appName row₁ d
    · simp [hkk]
    · simp [hkk]

/-- C9 witness: a concrete double export at one key stores exactly the
later value with its timestamp. -/
theorem c9_witness :
    exportMetrics cexMetrics cexParseDateMs 0 "App_1" cexRowA "daily_user_installs" 5
        "2026-01-01"
        (exportMetrics cexMetrics cexParseDateMs 0 "App_1" cexRowA "daily_user_installs" 3
          "2026-01-01" cexStoreEmpty)
        (buildMetricKey ⟨"daily_user_installs", "appstore_daily_user_installs_v2",
          [("country", "Territory")]⟩ "App_1" cexRowA "2026-01-01") =
      some (5, computeTimestampMs cexParseDateMs 0 "2026-01-01") :=
  (c9_export_overwrites cexMetrics cexParseDateMs 0 "App_1" cexRowA cexRowA
    "daily_user_installs" 3 5 "2026-01-01" cexStoreEmpty
    ⟨"daily_user_installs", "appstore_daily_user_installs_v2", [("country", "Territory")]⟩
    (by decide) rfl).2.1

/-! ## Claim C3: report-name resolution -/

/-- C3 counterexample: resolution is not exactly "case-insensitive
equality with the requested name" — the requested name is stripped
first.  The padded request `" X"` resolves against the catalog entry
named `"X"`, although no entry's name equals `" X"` case-insensitively. -/
theorem c3_counterexample :
    findReportId [⟨"id1", "X", "c"⟩] " X" = some "id1" ∧
    ¬ ∃ it ∈ [(⟨"id1", "X", "c"⟩ : ReportItem)], pyLower it.name = pyLower " X" := by
  refine ⟨rfl, by decide⟩

/-- C3 amended: resolution succeeds exactly when the whitespace-stripped
requested name is non-empty and equals some catalog entry's name
case-insensitively (still no substring or fuzzy matching), and a
successful resolution returns the id of such an entry; `NotFound` is a
value (`none`), never an exception. -/
theorem c3_amended_exact_resolution (items : List ReportItem) (pat : String) :
    ((findReportId items pat).isSome ↔
      pyStrip pat ≠ "" ∧ ∃ it ∈ items, pyLower it.name = pyLower (pyStrip pat)) ∧
    (∀ idv, findReportId items pat = some idv →
      ∃ it ∈ items, it.id = idv ∧ pyLower it.name = pyLower (pyStrip pat)) := by
  unfold findReportId
  by_cases ht : pyStrip pat = ""
  · simp [ht]
  · simp only [ht, ne_eq, not_false_eq_true, if_pos, List.findSome?_cons,
      List.findSome?_nil]
    constructor
    · rcases hf : List.find? (fun it => pyLower it.name = pyLower (pyStrip pat)) items
        with _ | it₀
      · simp only [hf, Option.map_none', Option.isSome_none]
        constructor
        · intro h; cases h
        · rintro ⟨-, it, hmem, hname⟩
          have := List.find?_eq_none.mp hf it hmem
          simp [hname] at this
      · simp only [hf, Option.map_some', Option.isSome_some, true_iff]
        refine ⟨by simp [ht], it₀, List.mem_of_find?_eq_some hf, ?_⟩
        have := List.find?_some hf
        simpa using this
    · intro idv h
      rcases hf : List.find? (fun it => pyLower it.name = pyLower (pyStrip pat)) items
        with _ | it₀
      · rw [hf] at h; cases h
      · rw [hf] at h
        simp only [Option.map_some', Option.some.injEq] at h
        refine ⟨it₀, List.mem_of_find?_eq_some hf, h, ?_⟩
        have := List.find?_some hf
        simpa using this

/-- C3 witness: end-to-end scenario B — the mixed-case exact request
resolves to the first catalog entry, and the resolved entry's name
matches case-insensitively. -/
theorem c3_witness :
    findReportId cexCatalog "app downloads standard" = some "r1" ∧
    ∃ it ∈ cexCatalog, it.id = "r1" ∧
      pyLower it.name = pyLower (pyStrip "app downloads standard") :=
  ⟨by decide,
    (c3_amended_exact_resolution cexCatalog "app downloads standard").2 "r1" (by decide)⟩

/-! ## Claim C6: health never regresses after a success -/

theorem filterMap_id_length_lt (aes : List (Option String)) :
    (aes.filterMap id).length < aes.length ↔ ∃ a ∈ aes, a = none := by
  induction aes with
  | nil => simp
  | cons a as ih =>
    cases a with
    | none =>
      have hle := List.length_filterMap_le (id : Option String → Option String) as
      simp only [List.filterMap_cons, id, List.length_cons]
      constructor
      · intro _
        exact ⟨none, List.mem_cons_self _ _, rfl⟩
      · intro _
        omega
    | some v =>
      simp only [List.filterMap_cons, id, List.length_cons]
      constructor
      · intro h
        rcases ih.mp (by omega) with ⟨x, hx, hxn⟩
        exact ⟨x, List.mem_cons_of_mem _ hx, hxn⟩
      · rintro ⟨x, hx, hxn⟩
        rcases List.mem_cons.mp hx with hh | hh
        · rw [hh] at hxn; cases hxn
        · have := ih.mpr ⟨x, hh, hxn⟩
          omega

/-- The `healthy` flag after one cycle: set to `true` unless every app
failed, in which case it is left untouched. -/
theorem runCollectionHealth_healthy (now : Nat) (aes : List (Option String))
    (h : HealthState) :
    (runCollectionHealth now aes h).healthy =
      if TotalFailureCycle aes then h.healthy else true := by
  unfold runCollectionHealth
  by_cases he : (aes.filterMap id).isEmpty
  · have hall : ∀ a ∈ aes, a = none := by
      have := List.isEmpty_iff.mp he
      intro a ha
      cases hv : a with
      | none => rfl
      | some v =>
        have : v ∈ aes.filterMap id := List.mem_filterMap.mpr ⟨a, ha, by rw [hv]; rfl⟩
        rw [List.isEmpty_iff.mp he] at this
        cases this
    have htf : ¬ TotalFailureCycle aes := by
      rintro ⟨hne, hforall⟩
      cases aes with
      | nil => exact hne rfl
      | cons a as => exact hforall a (List.mem_cons_self _ _) (hall a (List.mem_cons_self _ _))
    simp [he, htf]
  · rw [if_neg he]
    by_cases hlt : (aes.filterMap id).length < aes.length
    · have htf : ¬ TotalFailureCycle aes := by
        rcases (filterMap_id_length_lt aes).mp hlt with ⟨a, ha, han⟩
        rintro ⟨-, hforall⟩
        exact hforall a ha han
      simp [hlt, htf]
    · have htf : TotalFailureCycle aes := by
        constructor
        · intro hnil
          rw [hnil] at he
          exact he rfl
        · intro a ha
          intro han
          exact hlt ((filterMap_id_length_lt aes).mpr ⟨a, ha, han⟩)
      simp [hlt, htf]

/-- The `healthy` flag over a whole run: it is still `false` exactly
when it started `false` and every cycle so far was a total failure. -/
theorem runCollectionCycles_healthy_false_iff
    (cycles : List (Nat × List (Option String))) (h : HealthState) :
    (runCollectionCycles cycles h).healthy = false ↔
      (h.healthy = false ∧ ∀ c ∈ cycles, TotalFailureCycle c.2) := by
  induction cycles generalizing h with
  | nil => simp [runCollectionCycles]
  | cons c cs ih =>
    simp only [runCollectionCycles, List.foldl_cons] at ih ⊢
    rw [ih, runCollectionHealth_healthy]
    by_cases htf : TotalFailureCycle c.2
    · simp [htf, List.forall_mem_cons, and_assoc]
    · simp [htf, List.forall_mem_cons]

/-- C6: once some cycle has fully or partially succeeded the reported
health never regresses — a healthy state stays healthy through any
further cycles, including cycles in which every app fails; and starting
from the initial state, health is still unhealthy exactly when every
cycle so far was a total failure. -/
theorem c6_health_never_regresses (cycles : List (Nat × List (Option String)))
    (h : HealthState) :
    (h.healthy = true → (runCollectionCycles cycles h).healthy = true) ∧
    ((runCollectionCycles cycles initialHealthState).healthy = false ↔
      ∀ c ∈ cycles, TotalFailureCycle c.2) := by
  constructor
  · intro hh
    by_contra hfalse
    have hf : (runCollectionCycles cycles h).healthy = false := by
      revert hfalse
      cases (runCollectionCycles cycles h).healthy <;> simp
    rcases (runCollectionCycles_healthy_false_iff cycles h).mp hf with ⟨h0, -⟩
    rw [hh] at h0
    cases h0
  · have hiff := runCollectionCycles_healthy_false_iff cycles initialHealthState
    simpa [initialHealthState] using hiff

/-- C6 witness: the spec's health-transition scenario.  A first totally
failed cycle leaves the initial state unhealthy, while a totally failed
cycle starting from a healthy (previously partially successful) state
stays healthy. -/
theorem c6_witness :
    (runCollectionCycles [(1, [some "boom", some "boom"])] initialHealthState).healthy
        = false ∧
    (runCollectionCycles [(3, [some "boom", some "boom"])]
        ⟨true, some 2, some "Failed to collect metrics for 1/2 apps", 2⟩).healthy
        = true :=
  ⟨(c6_health_never_regresses [(1, [some "boom", some "boom"])] initialHealthState).2.mpr
      (by decide),
    (c6_health_never_regresses [(3, [some "boom", some "boom"])]
      ⟨true, some 2, some "Failed to collect metrics for 1/2 apps", 2⟩).1 rfl⟩

/-! ## Claim C4: lookback-window filtering

The filter compares ISO date strings; the lemmas below show that on
zero-padded `YYYY-MM-DD` renderings the string comparison agrees with
the calendar order, so the filter's boundary behavior can be stated
about dates. -/

theorem digitChar_lt_digitChar : ∀ a, a < 10 → ∀ b, b < 10 → a < b →
    digitChar a < digitChar b := by decide

theorem charsLtB_self : ∀ l : List Char, charsLtB l l = false := by
  intro l
  induction l with
  | nil => rfl
  | cons c cs ih =>
    simp only [charsLtB]
    rw [if_neg (lt_irrefl c), if_neg (lt_irrefl c), ih]

theorem strLtB_self (s : String) : strLtB s s = false := charsLtB_self s.toList

theorem charsLtB_append_left (p xs ys : List Char) :
    charsLtB (p ++ xs) (p ++ ys) = charsLtB xs ys := by
  induction p with
  | nil => rfl
  | cons c cs ih =>
    simp only [List.cons_append, charsLtB]
    rw [if_neg (lt_irrefl c), if_neg (lt_irrefl c)]
    exact ih

theorem charsLtB_append_cons_left (p : List Char) (c : Char) (xs ys : List Char) :
    charsLtB (p ++ c :: xs) (p ++ c :: ys) = charsLtB xs ys := by
  have h := charsLtB_append_left (p ++ [c]) xs ys
  rw [List.append_assoc, List.append_assoc, List.singleton_append] at h
  exact h

theorem charsLtB_padChars_lt : ∀ (w n m : Nat), n < m → m < 10 ^ w →
    ∀ t₁ t₂, charsLtB (padChars w n ++ t₁) (padChars w m ++ t₂) = true := by
  intro w
  induction w with
  | zero =>
    intro n m hnm hm t₁ t₂
    exact absurd hnm (by omega)
  | succ w ih =>
    intro n m hnm hm t₁ t₂
    have hpow : 0 < 10 ^ w := Nat.pos_pow_of_pos w (by omega)
    have hdn : n / 10 ^ w ≤ m / 10 ^ w := Nat.div_le_div_right (le_of_lt hnm)
    have hm10 : m / 10 ^ w < 10 := by
      apply Nat.div_lt_of_lt_mul
      have : 10 ^ (w + 1) = 10 ^ w * 10 := by ring
      omega
    simp only [padChars, List.cons_append, charsLtB]
    rcases lt_or_eq_of_le hdn with hlt | heq
    · rw [if_pos (digitChar_lt_digitChar _ (by omega) _ hm10 hlt)]
    · rw [heq]
      rw [if_neg (lt_irrefl _), if_neg (lt_irrefl _)]
      apply ih
      · have h1 : 10 ^ w * (n / 10 ^ w) + n % 10 ^ w = n := Nat.div_add_mod n _
        have h2 : 10 ^ w * (m / 10 ^ w) + m % 10 ^ w = m := Nat.div_add_mod m _
        rw [heq] at h1
        omega
      · exact Nat.mod_lt _ hpow

/-- Calendar order transfers to the string comparison of the ISO
renderings. -/
theorem strLtB_isoOfDate {a b : CalDate} (ha : a.Valid) (hb : b.Valid)
    (hab : a.olderThan b) : strLtB (isoOfDate a) (isoOfDate b) = true := by
  show charsLtB
    (padChars 4 a.year ++ '-' :: padChars 2 a.month ++ '-' :: padChars 2 a.day)
    (padChars 4 b.year ++ '-' :: padChars 2 b.month ++ '-' :: padChars 2 b.day) = true
  simp only [List.append_assoc, List.cons_append]
  have hby : b.year < 10 ^ 4 := by
    have := hb.1
    omega
  have hbm : b.month < 10 ^ 2 := by
    have := hb.2.2.1
    omega
  have hbd : b.day < 10 ^ 2 := by
    have := hb.2.2.2.2
    omega
  rcases hab with hy | ⟨hy, hm | ⟨hm, hd⟩⟩
  · exact charsLtB_padChars_lt 4 _ _ hy hby _ _
  · rw [hy, charsLtB_append_cons_left]
    exact charsLtB_padChars_lt 2 _ _ hm hbm _ _
  · have h := charsLtB_padChars_lt 2 _ _ hd hbd ([] : List Char) ([] : List Char)
    rw [List.append_nil, List.append_nil] at h
    rw [hy, hm, charsLtB_append_cons_left, charsLtB_append_cons_left]
    exact h

/-- C4: the lookback-window filter of `_process_analytics_data` never
keeps (hence the pipeline never processes, and never fetches segments
for) an instance whose processing date is strictly older than the
cutoff date `today - lookbackDays`, in either the pooling loop's filter
or the freshest-instance scanner's filter; an instance whose processing
date equals the cutoff exactly is retained. -/
theorem c4_window_boundary (cutoff : CalDate) (hc : cutoff.Valid)
    (insts : List ReportInstance) (i : ReportInstance) :
    (∀ d : CalDate, d.Valid → d.olderThan cutoff →
      i.processingDate.take 10 = isoOfDate d →
      i ∉ wantedInstances (isoOfDate cutoff) insts ∧
        ∀ g, i ∉ freshestWanted g (isoOfDate cutoff) insts) ∧
    (i ∈ insts → i.processingDate.take 10 = isoOfDate cutoff →
      i ∈ wantedInstances (isoOfDate cutoff) insts) := by
  constructor
  · intro d hd hold hiso
    have hlt : strLtB (i.processingDate.take 10) (isoOfDate cutoff) = true := by
      rw [hiso]
      exact strLtB_isoOfDate hd hc hold
    constructor
    · intro hmem
      have hkeep := (List.mem_filter.mp hmem).2
      rw [hlt] at hkeep
      cases hkeep
    · intro g hmem
      have hkeep := (List.mem_filter.mp hmem).2
      rw [hlt] at hkeep
      cases hkeep
  · intro hmem hiso
    apply List.mem_filter.mpr
    refine ⟨hmem, ?_⟩
    rw [hiso, strLtB_self]
    rfl

/-- C4 witness: with cutoff 2026-10-01, the instance dated 2026-09-30 is
excluded and the boundary instance dated 2026-10-01 is retained. -/
theorem c4_witness :
    cexInstOld ∉ wantedInstances (isoOfDate ⟨2026, 10, 1⟩) [cexInstOld, cexInstBoundary] ∧
    cexInstBoundary ∈
      wantedInstances (isoOfDate ⟨2026, 10, 1⟩) [cexInstOld, cexInstBoundary] :=
  ⟨((c4_window_boundary ⟨2026, 10, 1⟩ (by decide) [cexInstOld, cexInstBoundary]
      cexInstOld).1 ⟨2026, 9, 30⟩ (by decide) (by decide) (by decide)).1,
    (c4_window_boundary ⟨2026, 10, 1⟩ (by decide) [cexInstOld, cexInstBoundary]
      cexInstBoundary).2 (by decide) (by decide)⟩

/-! ## Per-group loop invariants

The key and date computations are opaque for this block of proofs — the
loop's bookkeeping does not depend on how the key strings are built. -/

attribute [irreducible] uniqueKeyOf dateValOfRow dateValOf extractNumber schemaSig getCol

theorem processGroupStep_inv (pf : String → Option ℚ) (vcol : String) (hv : ¬ vcol = "")
    (sc : List String) (src : List Row) (st : GroupResult) (r : Row)
    (hr : r ∈ src) (hinv : GroupInv pf vcol sc src st) :
    GroupInv pf vcol sc src (processGroupStep pf (some vcol) sc st r) := by
  obtain ⟨hexp, hnodup, hkeys, hseen, hdups⟩ := hinv
  unfold processGroupStep
  dsimp only
  rw [if_neg hv]
  cases hg : getCol r vcol with
  | none => exact ⟨hexp, hnodup, hkeys, hseen, hdups⟩
  | some v =>
    dsimp only
    by_cases hve : v = ""
    · rw [if_pos hve]
      exact ⟨hexp, hnodup, hkeys, hseen, hdups⟩
    · rw [if_neg hve]
      split
      next hk =>
        refine ⟨hexp, hnodup, hkeys, hseen, ?_⟩
        intro d hd
        rcases List.mem_append.mp hd with hd | hd
        · exact hdups d hd
        · have hdr : d = r := List.mem_singleton.mp hd
          rw [hdr]
          rcases hseen _ hk with ⟨c, hc, hcv, hck⟩
          exact ⟨hr, c, hc, hcv, hck⟩
      next hk =>
        split
        next hneg =>
          refine ⟨hexp, hnodup, ?_, ?_, hdups⟩
          · intro e he
            exact List.mem_append_left _ (hkeys e he)
          · intro k hkm
            rcases List.mem_append.mp hkm with hkm | hkm
            · exact hseen k hkm
            · have hkr : k = uniqueKeyOf vcol sc r := List.mem_singleton.mp hkm
              rw [hkr]
              exact ⟨r, hr, ⟨v, hg, hve⟩, rfl⟩
        next hneg =>
          refine ⟨?_, ?_, ?_, ?_, hdups⟩
          · intro e he
            rcases List.mem_append.mp he with he | he
            · exact hexp e he
            · have her : e = ⟨r, extractNumber pf (some v), dateValOfRow r⟩ :=
                List.mem_singleton.mp he
              rw [her]
              exact ⟨hr, ⟨v, hg, hve, rfl⟩, not_lt.mp hneg, rfl⟩
          · rw [List.map_append]
            apply List.nodup_append.mpr
            refine ⟨hnodup, by simp, ?_⟩
            intro a ha ha'
            simp only [List.map_cons, List.map_nil, List.mem_singleton] at ha'
            rcases List.mem_map.mp ha with ⟨e, he, hk'⟩
            have hmem := hkeys e he
            rw [hk'.trans ha'] at hmem
            exact hk hmem
          · intro e he
            rcases List.mem_append.mp he with he | he
            · exact List.mem_append_left _ (hkeys e he)
            · have her : e = ⟨r, extractNumber pf (some v), dateValOfRow r⟩ :=
                List.mem_singleton.mp he
              rw [her]
              exact List.mem_append_right _ (List.mem_singleton.mpr rfl)
          · intro k hkm
            rcases List.mem_append.mp hkm with hkm | hkm
            · exact hseen k hkm
            · have hkr : k = uniqueKeyOf vcol sc r := List.mem_singleton.mp hkm
              rw [hkr]
              exact ⟨r, hr, ⟨v, hg, hve⟩, rfl⟩

theorem processGroupFold_inv (pf : String → Option ℚ) (vcol : String) (hv : ¬ vcol = "")
    (sc : List String) (src : List Row) :
    ∀ (rows : List Row) (st : GroupResult), (∀ x ∈ rows, x ∈ src) →
      GroupInv pf vcol sc src st →
      GroupInv pf vcol sc src (rows.foldl (processGroupStep pf (some vcol) sc) st) := by
  intro rows
  induction rows with
  | nil => intro st _ h; exact h
  | cons r rs ih =>
    intro st hsub hinv
    simp only [List.foldl_cons]
    exact ih _ (fun x hx => hsub x (List.mem_cons_of_mem _ hx))
      (processGroupStep_inv pf vcol hv sc src st r (hsub r (List.mem_cons_self _ _)) hinv)

theorem processSchemaGroup_inv (pf : String → Option ℚ) (vcol : String)
    (hv : ¬ vcol = "") (sc : List String) (rows : List Row) :
    GroupInv pf vcol sc rows (processSchemaGroup pf (some vcol) sc rows) := by
  unfold processSchemaGroup
  refine processGroupFold_inv pf vcol hv sc rows rows ⟨[], [], []⟩ (fun x hx => hx) ?_
  refine ⟨?_, ?_, ?_, ?_, ?_⟩ <;> simp

/-- With no usable value column the whole group loop is a no-op. -/
theorem processSchemaGroup_off (pf : String → Option ℚ) (vc : Option String)
    (sc : List String) (rows : List Row) (h : vc = none ∨ vc = some "") :
    processSchemaGroup pf vc sc rows = ⟨[], [], []⟩ := by
  have hstep : ∀ st r, processGroupStep pf vc sc st r = st := by
    intro st r
    rcases h with rfl | rfl
    · rfl
    · unfold processGroupStep
      dsimp only
      rw [if_pos rfl]
  suffices aux : ∀ (rows : List Row) (st : GroupResult),
      rows.foldl (processGroupStep pf vc sc) st = st from aux rows ⟨[], [], []⟩
  intro rows
  induction rows with
  | nil => intro st; rfl
  | cons r rs ih =>
    intro st
    rw [List.foldl_cons, hstep]
    exact ih st

/-! ## Schema grouping and pipeline structure -/

theorem addToGroup_map_fst (gs : List (List String × List Row)) (s : List String)
    (r : Row) :
    (addToGroup gs s r).map Prod.fst =
      if s ∈ gs.map Prod.fst then gs.map Prod.fst else gs.map Prod.fst ++ [s] := by
  induction gs with
  | nil => simp [addToGroup]
  | cons g rest ih =>
    obtain ⟨t, rs⟩ := g
    by_cases hts : t = s
    · simp [addToGroup, hts]
    · simp only [addToGroup, if_neg hts, List.map_cons, ih]
      by_cases hmem : s ∈ rest.map Prod.fst
      · rw [if_pos hmem, if_pos (by simp [hmem])]
      · rw [if_neg hmem, if_neg (by simp only [List.mem_cons, not_or]; exact ⟨fun h => hts h.symm, hmem⟩)]
        simp

theorem addToGroup_mem (gs : List (List String × List Row)) (s : List String) (r : Row) :
    ∀ g ∈ addToGroup gs s r, ∀ x ∈ g.2,
      (∃ g₀ ∈ gs, g₀.1 = g.1 ∧ x ∈ g₀.2) ∨ (x = r ∧ g.1 = s) := by
  induction gs with
  | nil =>
    intro g hg x hx
    simp only [addToGroup, List.mem_singleton] at hg
    rw [hg] at hx ⊢
    simp only [List.mem_singleton] at hx
    exact Or.inr ⟨hx, rfl⟩
  | cons g₁ rest ih =>
    obtain ⟨t, rs⟩ := g₁
    intro g hg x hx
    by_cases hts : t = s
    · simp only [addToGroup, if_pos hts, List.mem_cons] at hg
      rcases hg with hg | hg
      · rw [hg] at hx ⊢
        simp only at hx ⊢
        rcases List.mem_append.mp hx with hx | hx
        · exact Or.inl ⟨(t, rs), List.mem_cons_self _ _, rfl, hx⟩
        · exact Or.inr ⟨List.mem_singleton.mp hx, hts⟩
      · exact Or.inl ⟨g, List.mem_cons_of_mem _ hg, rfl, hx⟩
    · simp only [addToGroup, if_neg hts, List.mem_cons] at hg
      rcases hg with hg | hg
      · rw [hg] at hx ⊢
        exact Or.inl ⟨(t, rs), List.mem_cons_self _ _, rfl, hx⟩
      · rcases ih g hg x hx with ⟨g₀, hg₀, he, hx₀⟩ | hr
        · exact Or.inl ⟨g₀, List.mem_cons_of_mem _ hg₀, he, hx₀⟩
        · exact Or.inr hr

theorem groupBySchema_inv (rows : List Row) :
    ((groupBySchema rows).map Prod.fst).Nodup ∧
    (∀ g ∈ groupBySchema rows, ∀ x ∈ g.2, schemaSig x = g.1 ∧ x ∈ rows) := by
  suffices aux : ∀ (l : List Row) (P : Row → Prop)
      (gs₀ : List (List String × List Row)), (∀ x ∈ l, P x) →
      (gs₀.map Prod.fst).Nodup →
      (∀ g ∈ gs₀, ∀ x ∈ g.2, schemaSig x = g.1 ∧ P x) →
      ((l.foldl (fun gs r => addToGroup gs (schemaSig r) r) gs₀).map Prod.fst).Nodup ∧
      (∀ g ∈ l.foldl (fun gs r => addToGroup gs (schemaSig r) r) gs₀,
        ∀ x ∈ g.2, schemaSig x = g.1 ∧ P x) by
    have h := aux rows (fun x => x ∈ rows) [] (fun x hx => hx) (by simp) (by simp)
    exact ⟨h.1, h.2⟩
  intro l
  induction l with
  | nil =>
    intro P gs₀ _ h1 h2
    exact ⟨h1, h2⟩
  | cons r rest ih =>
    intro P gs₀ hP h1 h2
    simp only [List.foldl_cons]
    apply ih P (addToGroup gs₀ (schemaSig r) r)
      (fun x hx => hP x (List.mem_cons_of_mem _ hx))
    · rw [addToGroup_map_fst]
      by_cases hm : schemaSig r ∈ gs₀.map Prod.fst
      · rw [if_pos hm]; exact h1
      · rw [if_neg hm]
        apply List.nodup_append.mpr
        refine ⟨h1, by simp, ?_⟩
        intro a ha ha'
        rw [List.mem_singleton] at ha'
        rw [ha'] at ha
        exact hm ha
    · intro g hg x hx
      rcases addToGroup_mem gs₀ (schemaSig r) r g hg x hx with ⟨g₀, hg₀, he, hx₀⟩ | ⟨hxr, hgs⟩
      · have := h2 g₀ hg₀ x hx₀
        exact ⟨he ▸ this.1, this.2⟩
      · rw [hxr, hgs]
        exact ⟨rfl, hP r (List.mem_cons_self _ _)⟩

theorem foldl_append_pair {α β γ : Type} (f : γ → List α) (h : γ → List β) :
    ∀ (gs : List γ) (acc : List α × List β),
    gs.foldl (fun acc g => (acc.1 ++ f g, acc.2 ++ h g)) acc =
      (acc.1 ++ (gs.map f).flatten, acc.2 ++ (gs.map h).flatten) := by
  intro gs
  induction gs with
  | nil => intro acc; simp
  | cons g rest ih =>
    intro acc
    rw [List.foldl_cons, ih]
    simp

/-- The pipeline output is the concatenation of the per-group results. -/
theorem processRows_eq (pf : String → Option ℚ) (cfg : PipelineConfig)
    (insts : List (String × List Row)) :
    processRows pf cfg insts =
      (((groupBySchema (filteredRowsOf cfg (poolInstanceRows insts))).map
          (fun g => (processSchemaGroup pf cfg.valueCol g.1 g.2).exports)).flatten,
       ((groupBySchema (filteredRowsOf cfg (poolInstanceRows insts))).map
          (fun g => (processSchemaGroup pf cfg.valueCol g.1 g.2).duplicates)).flatten) := by
  unfold processRows
  have h := foldl_append_pair
    (fun g => (processSchemaGroup pf cfg.valueCol g.1 g.2).exports)
    (fun g => (processSchemaGroup pf cfg.valueCol g.1 g.2).duplicates)
    (groupBySchema (filteredRowsOf cfg (poolInstanceRows insts))) ([], [])
  simpa using h

theorem dedupFold_subset (l : List Row) :
    ∀ (st : List String × List Row), ∀ r ∈ (l.foldl dedupStep st).2,
      r ∈ st.2 ∨ r ∈ l := by
  induction l with
  | nil =>
    intro st r hr
    exact Or.inl hr
  | cons x xs ih =>
    intro st r hr
    rw [List.foldl_cons] at hr
    rcases ih (dedupStep st x) r hr with hr' | hr'
    · unfold dedupStep at hr'
      by_cases hk : rowIdentKey x ∈ st.1
      · rw [if_pos hk] at hr'
        exact Or.inl hr'
      · rw [if_neg hk] at hr'
        rcases List.mem_append.mp hr' with hr'' | hr''
        · exact Or.inl hr''
        · exact Or.inr (List.mem_cons.mpr (Or.inl (List.mem_singleton.mp hr'')))
    · exact Or.inr (List.mem_cons_of_mem _ hr')

theorem aggregateRows_subset (ls : List (List Row)) :
    ∀ r ∈ aggregateRows ls, ∃ l ∈ ls, r ∈ l := by
  suffices aux : ∀ (ls : List (List Row)) (st : List String × List Row),
      ∀ r ∈ (ls.foldl (fun st rows => rows.foldl dedupStep st) st).2,
        r ∈ st.2 ∨ ∃ l ∈ ls, r ∈ l by
    intro r hr
    rcases aux ls ([], []) r hr with h | h
    · cases h
    · exact h
  intro ls
  induction ls with
  | nil =>
    intro st r hr
    exact Or.inl hr
  | cons l₀ rest ih =>
    intro st r hr
    rw [List.foldl_cons] at hr
    rcases ih _ r hr with hr' | ⟨l, hl, hrl⟩
    · rcases dedupFold_subset l₀ st r hr' with h | h
      · exact Or.inl h
      · exact Or.inr ⟨l₀, List.mem_cons_self _ _, h⟩
    · exact Or.inr ⟨l, List.mem_cons_of_mem _ hl, hrl⟩

theorem poolInstanceRows_subset (insts : List (String × List Row)) :
    ∀ r ∈ poolInstanceRows insts, ∃ p ∈ insts, r ∈ p.2 := by
  intro r hr
  unfold poolInstanceRows at hr
  rcases aggregateRows_subset _ r hr with ⟨l, hl, hrl⟩
  rcases List.mem_map.mp hl with ⟨p, hp, hpl⟩
  refine ⟨p, ?_, hpl ▸ hrl⟩
  exact (List.perm_insertionSort _ insts).subset hp

/-- Invariant of the cross-instance pooling loop: the seen-key list is
exactly the full-row keys of the kept rows, kept rows persist, and every
processed row has a kept representative with the same full-row key. -/
theorem dedupFold_inv (l : List Row) :
    ∀ st : List String × List Row, st.1 = st.2.map rowIdentKey →
      ((l.foldl dedupStep st).1 = (l.foldl dedupStep st).2.map rowIdentKey) ∧
      (∀ c ∈ st.2, c ∈ (l.foldl dedupStep st).2) ∧
      (∀ r ∈ l, ∃ c ∈ (l.foldl dedupStep st).2, rowIdentKey c = rowIdentKey r) := by
  induction l with
  | nil =>
    intro st h
    exact ⟨h, fun c hc => hc, by simp⟩
  | cons x xs ih =>
    intro st h
    rw [List.foldl_cons]
    by_cases hk : rowIdentKey x ∈ st.1
    · have hstep : dedupStep st x = st := by
        simp only [dedupStep]
        rw [if_pos hk]
      rw [hstep]
      obtain ⟨h1, h2, h3⟩ := ih st h
      refine ⟨h1, h2, ?_⟩
      intro r hr
      rcases List.mem_cons.mp hr with hr | hr
      · rw [h] at hk
        rcases List.mem_map.mp hk with ⟨c, hc, hck⟩
        refine ⟨c, h2 c hc, ?_⟩
        rw [hr]
        exact hck
      · exact h3 r hr
    · have hstep : dedupStep st x = (st.1 ++ [rowIdentKey x], st.2 ++ [x]) := by
        simp only [dedupStep]
        rw [if_neg hk]
      rw [hstep]
      have h' : ((st.1 ++ [rowIdentKey x], st.2 ++ [x]) : List String × List Row).1 =
          ((st.1 ++ [rowIdentKey x], st.2 ++ [x]) : List String × List Row).2.map rowIdentKey := by
        show st.1 ++ [rowIdentKey x] = (st.2 ++ [x]).map rowIdentKey
        rw [List.map_append, h]
        rfl
      obtain ⟨h1, h2, h3⟩ := ih (st.1 ++ [rowIdentKey x], st.2 ++ [x]) h'
      refine ⟨h1, ?_, ?_⟩
      · intro c hc
        exact h2 c (List.mem_append_left _ hc)
      · intro r hr
        rcases List.mem_cons.mp hr with hr | hr
        · refine ⟨x, h2 x (List.mem_append_right _ (List.mem_singleton.mpr rfl)), ?_⟩
          rw [hr]
        · exact h3 r hr

theorem aggregateRows_repr (ls : List (List Row)) :
    ∀ l ∈ ls, ∀ r ∈ l, ∃ c ∈ aggregateRows ls, rowIdentKey c = rowIdentKey r := by
  suffices aux : ∀ (ls : List (List Row)) (st : List String × List Row),
      st.1 = st.2.map rowIdentKey →
      ((ls.foldl (fun st rows => rows.foldl dedupStep st) st).1 =
        (ls.foldl (fun st rows => rows.foldl dedupStep st) st).2.map rowIdentKey) ∧
      (∀ c ∈ st.2, c ∈ (ls.foldl (fun st rows => rows.foldl dedupStep st) st).2) ∧
      (∀ l ∈ ls, ∀ r ∈ l,
        ∃ c ∈ (ls.foldl (fun st rows => rows.foldl dedupStep st) st).2,
          rowIdentKey c = rowIdentKey r) by
    intro l hl r hr
    exact (aux ls ([], []) rfl).2.2 l hl r hr
  intro ls
  induction ls with
  | nil =>
    intro st h
    exact ⟨h, fun c hc => hc, by simp⟩
  | cons l₀ rest ih =>
    intro st h
    rw [List.foldl_cons]
    obtain ⟨g1, g2, g3⟩ := dedupFold_inv l₀ st h
    obtain ⟨h1, h2, h3⟩ := ih _ g1
    refine ⟨h1, fun c hc => h2 c (g2 c hc), ?_⟩
    intro l hl r hr
    rcases List.mem_cons.mp hl with hl | hl
    · rcases g3 r (by rw [← hl]; exact hr) with ⟨c, hc, hck⟩
      exact ⟨c, h2 c hc, hck⟩
    · exact h3 l hl r hr

/-- Every row fetched from any instance in the window has a pooled
representative with the same full-row key: the pooling stage suppresses
a row only in favor of an earlier row whose `|`-joined `column=value`
string is identical — a criterion that ignores schema signatures. -/
theorem poolInstanceRows_repr (insts : List (String × List Row)) :
    ∀ p ∈ insts, ∀ r ∈ p.2,
      ∃ c ∈ poolInstanceRows insts, rowIdentKey c = rowIdentKey r := by
  intro p hp r hr
  unfold poolInstanceRows
  apply aggregateRows_repr
  · apply List.mem_map.mpr
    refine ⟨p, ?_, rfl⟩
    exact (List.perm_insertionSort _ insts).symm.subset hp
  · exact hr

/-! ## Claim C5: empty and negative value suppression -/

/-- C5: every sample the pipeline exports comes from a row whose
configured value column is present with non-empty content, and carries a
non-negative extracted value — so a row whose value column is missing or
empty, and a row whose extracted value is negative, never produces an
exported sample (the row is skipped silently: the pipeline is a total
function, it raises nothing). -/
theorem c5_empty_negative_suppression (pf : String → Option ℚ) (cfg : PipelineConfig)
    (insts : List (String × List Row)) :
    ∀ e ∈ (processRows pf cfg insts).1,
      (∃ c v, cfg.valueCol = some c ∧ c ≠ "" ∧ getCol e.row c = some v ∧ v ≠ "" ∧
        e.value = extractNumber pf (some v)) ∧
      0 ≤ e.value := by
  intro e he
  rw [processRows_eq] at he
  rcases List.mem_flatten.mp he with ⟨l, hl, hel⟩
  rcases List.mem_map.mp hl with ⟨g, hg, hgl⟩
  rw [← hgl] at hel
  cases hvc : cfg.valueCol with
  | none =>
    rw [hvc, processSchemaGroup_off pf none _ _ (Or.inl rfl)] at hel
    simp at hel
  | some vcol =>
    by_cases hvempty : vcol = ""
    · rw [hvc, hvempty, processSchemaGroup_off pf (some "") _ _ (Or.inr rfl)] at hel
      simp at hel
    · rw [hvc] at hel
      obtain ⟨hexp, -, -, -, -⟩ := processSchemaGroup_inv pf vcol hvempty g.1 g.2
      obtain ⟨-, ⟨v, hgv, hvne, hval⟩, hpos, -⟩ := hexp e hel
      exact ⟨⟨vcol, v, rfl, hvempty, hgv, hvne, hval⟩, hpos⟩

/-! ## Claim C2: schema isolation -/

/-- C2 (amended): schema isolation holds at the Dimensional-Key
deduplication stage but not at the earlier full-row pooling stage.  The
effective per-group deduplication identity of a row includes its schema
signature, so rows with different non-metadata column sets never receive
the same identity even when their key strings collide; the pipeline
partitions the filtered rows into groups keyed exactly by schema
signature, with pairwise-distinct signatures; and a row suppressed at
the Dimensional-Key stage was always claimed by a row of its own schema
signature.  The earlier cross-instance pooling dedup, however, keys each
row by the `|`-joined `column=value` string alone — blind to schema
signatures and non-injective — so it can silently suppress a row of a
DIFFERENT schema signature when the joined strings collide; it
suppresses a row only in favor of a kept row with the identical
full-row key string. -/
theorem c2_schema_isolation (pf : String → Option ℚ) (cfg : PipelineConfig)
    (insts : List (String × List Row)) (vcol : String)
    (hvc : cfg.valueCol = some vcol) :
    (∀ r₁ r₂ : Row, schemaSig r₁ ≠ schemaSig r₂ →
      effectiveDedupKey vcol r₁ ≠ effectiveDedupKey vcol r₂) ∧
    (∀ g ∈ groupBySchema (filteredRowsOf cfg (poolInstanceRows insts)),
      ∀ x ∈ g.2, schemaSig x = g.1) ∧
    ((groupBySchema (filteredRowsOf cfg (poolInstanceRows insts))).map Prod.fst).Nodup ∧
    (∀ d ∈ (processRows pf cfg insts).2,
      ∃ c ∈ filteredRowsOf cfg (poolInstanceRows insts),
        schemaSig c = schemaSig d ∧ HasValue vcol c ∧
        uniqueKeyOf vcol (schemaSig d) c = uniqueKeyOf vcol (schemaSig d) d) ∧
    (∀ p ∈ insts, ∀ r ∈ p.2,
      ∃ c ∈ poolInstanceRows insts, rowIdentKey c = rowIdentKey r) := by
  refine ⟨?_, ?_, (groupBySchema_inv _).1, ?_, poolInstanceRows_repr insts⟩
  · intro r₁ r₂ hne heq
    exact hne (congrArg Prod.fst heq)
  · intro g hg x hx
    exact ((groupBySchema_inv _).2 g hg x hx).1
  · intro d hd
    rw [processRows_eq] at hd
    rcases List.mem_flatten.mp hd with ⟨l, hl, hdl⟩
    rcases List.mem_map.mp hl with ⟨g, hg, hgl⟩
    rw [← hgl] at hdl
    by_cases hvempty : vcol = ""
    · rw [hvc, hvempty, processSchemaGroup_off pf (some "") _ _ (Or.inr rfl)] at hdl
      simp at hdl
    · rw [hvc] at hdl
      obtain ⟨-, -, -, -, hdups⟩ := processSchemaGroup_inv pf vcol hvempty g.1 g.2
      obtain ⟨hdg, c, hc, hcval, hckey⟩ := hdups d hdl
      have hgfacts := (groupBySchema_inv (filteredRowsOf cfg (poolInstanceRows insts))).2
      have hsig_c : schemaSig c = g.1 := (hgfacts g hg c hc).1
      have hsig_d : schemaSig d = g.1 := (hgfacts g hg d hdg).1
      have hmem_c : c ∈ filteredRowsOf cfg (poolInstanceRows insts) :=
        (hgfacts g hg c hc).2
      refine ⟨c, hmem_c, hsig_c.trans hsig_d.symm, hcval, ?_⟩
      rw [hsig_d]
      exact hckey

/-! ## The claim-level Dimensional Key determines the effective
deduplication identity

These lemmas unfold the key computations again. -/

set_option allowUnsafeReducibility true in
attribute [semireducible] uniqueKeyOf dateValOfRow dateValOf extractNumber schemaSig getCol

theorem filter_perm_partition {α : Type} (p q : α → Bool) (l : List α) :
    (l.filter p).Perm
      ((l.filter fun a => p a && q a) ++ (l.filter fun a => p a && !q a)) := by
  induction l with
  | nil => simp
  | cons a l ih =>
    by_cases hp : p a
    · by_cases hq : q a
      · simp only [List.filter_cons, hp, hq, Bool.and_true, Bool.not_true,
          Bool.and_false, Bool.and_self, Bool.true_and, ite_true, ite_false,
          if_false, if_true, List.cons_append]
        exact ih.cons a
      · have hq' : q a = false := by
          revert hq
          cases q a <;> simp
        simp only [List.filter_cons, hp, hq', Bool.and_true, Bool.and_false,
          Bool.true_and, Bool.not_false, ite_true, ite_false, if_false, if_true]
        exact (ih.cons a).trans List.perm_middle.symm
    · have hp' : p a = false := by
        revert hp
        cases p a <;> simp
      simp only [List.filter_cons, hp', Bool.false_and, ite_false, if_false]
      exact ih

theorem filter_nodup_single {l : List String} (hn : l.Nodup) {a : String} (ha : a ∈ l)
    (q : String → Bool) :
    l.filter (fun c => q c && decide (c = a)) = if q a = true then [a] else [] := by
  induction l with
  | nil => cases ha
  | cons x xs ih =>
    rw [List.nodup_cons] at hn
    rcases List.mem_cons.mp ha with hax | hmem
    · have hxs : xs.filter (fun c => q c && decide (c = a)) = [] := by
        apply List.filter_eq_nil_iff.mpr
        intro c hc
        have hca : ¬ c = a := fun h => hn.1 (hax ▸ h ▸ hc)
        simp [hca]
      rw [List.filter_cons, ← hax]
      by_cases hqx : q a = true
      · simp only [hqx, decide_True, Bool.and_true, ite_true, hxs]
      · have hqx' : q a = false := by
          revert hqx
          cases q a <;> simp
        simp only [hqx', decide_True, Bool.and_true, ite_false, hxs]
    · have hxa : ¬ x = a := fun h => hn.1 (h ▸ hmem)
      rw [List.filter_cons]
      simp only [hxa, decide_False, Bool.and_false, ite_false]
      exact ih hn.2 hmem

theorem getCol_mem_keys {r : Row} {c v : String} (h : getCol r c = some v) :
    c ∈ keysOf r := by
  unfold getCol at h
  rcases Option.map_eq_some'.mp h with ⟨p, hp, hpv⟩
  have hmem := List.mem_of_find?_eq_some hp
  have hpc := List.find?_some hp
  simp only [decide_eq_true_eq] at hpc
  exact List.mem_map.mpr ⟨p, hmem, hpc⟩

/-- Two rows with well-formed (duplicate-free) columns, both carrying
the value column, that agree on the claim-level Dimensional Key
necessarily have the same schema signature and the same in-group
deduplication key string. -/
theorem claimDimKey_eq_implies (vcol : String) (r₁ r₂ : Row)
    (h₁ : (keysOf r₁).Nodup) (h₂ : (keysOf r₂).Nodup)
    (hv₁ : vcol ∈ keysOf r₁) (hv₂ : vcol ∈ keysOf r₂)
    (heq : claimDimKey vcol r₁ = claimDimKey vcol r₂) :
    schemaSig r₁ = schemaSig r₂ ∧
    uniqueKeyOf vcol (schemaSig r₁) r₁ = uniqueKeyOf vcol (schemaSig r₂) r₂ := by
  simp only [claimDimKey, Prod.mk.injEq] at heq
  obtain ⟨hdate, hsnd⟩ := heq
  have hpairs : (((keysOf r₁).filter (fun c => !isMetaCol c && !(c = vcol))).map
      (fun c => (c, pyStrip ((getCol r₁ c).getD "")))).Perm
      (((keysOf r₂).filter (fun c => !isMetaCol c && !(c = vcol))).map
      (fun c => (c, pyStrip ((getCol r₂ c).getD "")))) :=
    Multiset.coe_eq_coe.mp hsnd
  have hkperm : ((keysOf r₁).filter (fun c => !isMetaCol c && !(c = vcol))).Perm
      ((keysOf r₂).filter (fun c => !isMetaCol c && !(c = vcol))) := by
    have hm := hpairs.map Prod.fst
    rw [List.map_map, List.map_map] at hm
    have e₁ : (Prod.fst ∘ fun c : String => (c, pyStrip ((getCol r₁ c).getD ""))) =
      fun c => c := rfl
    have e₂ : (Prod.fst ∘ fun c : String => (c, pyStrip ((getCol r₂ c).getD ""))) =
      fun c => c := rfl
    rw [e₁, e₂, List.map_id', List.map_id'] at hm
    exact hm
  have hsig : schemaSig r₁ = schemaSig r₂ := by
    unfold schemaSig
    apply insertionSort_eq_of_perm
    have p₁ := filter_perm_partition (fun c => !isMetaCol c) (fun c => !(c = vcol))
      (keysOf r₁)
    have p₂ := filter_perm_partition (fun c => !isMetaCol c) (fun c => !(c = vcol))
      (keysOf r₂)
    simp only [Bool.not_not] at p₁ p₂
    have v₁ := filter_nodup_single h₁ hv₁ (fun c => !isMetaCol c)
    have v₂ := filter_nodup_single h₂ hv₂ (fun c => !isMetaCol c)
    have hmid : (((keysOf r₁).filter (fun c => !isMetaCol c && !(c = vcol))) ++
        ((keysOf r₁).filter (fun c => !isMetaCol c && decide (c = vcol)))).Perm
        (((keysOf r₂).filter (fun c => !isMetaCol c && !(c = vcol))) ++
        ((keysOf r₂).filter (fun c => !isMetaCol c && decide (c = vcol)))) := by
      rw [v₁, v₂]
      exact hkperm.append_right _
    exact p₁.trans (hmid.trans p₂.symm)
  refine ⟨hsig, ?_⟩
  have hdim : (dimensionKeys vcol (schemaSig r₁) r₁).Perm
      (dimensionKeys vcol (schemaSig r₂) r₂) := by
    have s₁ : (dimensionKeys vcol (schemaSig r₁) r₁).Perm
        (((keysOf r₁).filter (fun c => !isMetaCol c && !(c = vcol))).map
          (fun c => c ++ "=" ++ pyStrip ((getCol r₁ c).getD ""))) := by
      unfold dimensionKeys schemaSig
      apply List.Perm.map
      have hp := (List.perm_insertionSort strLeP
        ((keysOf r₁).filter (fun k => !isMetaCol k))).filter
        (fun c => !(c = vcol) && !isMetaCol c)
      refine hp.trans ?_
      rw [List.filter_filter]
      rw [List.filter_congr]
      intro a _
      by_cases hm : isMetaCol a <;> by_cases hv : a = vcol <;> simp [hm, hv]
    have s₂ : (dimensionKeys vcol (schemaSig r₂) r₂).Perm
        (((keysOf r₂).filter (fun c => !isMetaCol c && !(c = vcol))).map
          (fun c => c ++ "=" ++ pyStrip ((getCol r₂ c).getD ""))) := by
      unfold dimensionKeys schemaSig
      apply List.Perm.map
      have hp := (List.perm_insertionSort strLeP
        ((keysOf r₂).filter (fun k => !isMetaCol k))).filter
        (fun c => !(c = vcol) && !isMetaCol c)
      refine hp.trans ?_
      rw [List.filter_filter]
      rw [List.filter_congr]
      intro a _
      by_cases hm : isMetaCol a <;> by_cases hv : a = vcol <;> simp [hm, hv]
    have hmapped : ((((keysOf r₁).filter (fun c => !isMetaCol c && !(c = vcol))).map
        (fun c => c ++ "=" ++ pyStrip ((getCol r₁ c).getD "")))).Perm
        (((keysOf r₂).filter (fun c => !isMetaCol c && !(c = vcol))).map
        (fun c => c ++ "=" ++ pyStrip ((getCol r₂ c).getD ""))) := by
      have hj := hpairs.map (fun p : String × String => p.1 ++ "=" ++ p.2)
      rw [List.map_map, List.map_map] at hj
      exact hj
    exact s₁.trans (hmapped.trans s₂.symm)
  unfold uniqueKeyOf
  rw [hdate, insertionSort_eq_of_perm hdim]

/-! ## Claim C1 (amended): at most one export per Dimensional Key -/

/-- Gathers, for an exported item of one schema group, the facts needed
to apply the Dimensional-Key bridge: its row is a well-formed input row
whose schema signature is the group's, and the value column is among its
columns. -/
theorem export_row_facts (pf : String → Option ℚ) (cfg : PipelineConfig)
    (insts : List (String × List Row)) (vcol : String)
    (hwf : ∀ p ∈ insts, ∀ r ∈ p.2, (keysOf r).Nodup)
    (hvempty : ¬ vcol = "") (g : List String × List Row)
    (hg : g ∈ groupBySchema (filteredRowsOf cfg (poolInstanceRows insts)))
    (e : ExportItem) (he : e ∈ (processSchemaGroup pf (some vcol) g.1 g.2).exports) :
    schemaSig e.row = g.1 ∧ (keysOf e.row).Nodup ∧ vcol ∈ keysOf e.row := by
  obtain ⟨hexp, -, -, -, -⟩ := processSchemaGroup_inv pf vcol hvempty g.1 g.2
  obtain ⟨hrow, ⟨v, hgv, -, -⟩, -, -⟩ := hexp e he
  have hgfacts := (groupBySchema_inv (filteredRowsOf cfg (poolInstanceRows insts))).2
  have hsig : schemaSig e.row = g.1 := (hgfacts g hg e.row hrow).1
  have hmem : e.row ∈ filteredRowsOf cfg (poolInstanceRows insts) :=
    (hgfacts g hg e.row hrow).2
  have hpool : e.row ∈ poolInstanceRows insts := (List.mem_filter.mp hmem).1
  rcases poolInstanceRows_subset insts _ hpool with ⟨p, hp, hrp⟩
  exact ⟨hsig, hwf p hp _ hrp, getCol_mem_keys hgv⟩

/-- C1 amended: over the rows pooled from all instances in the window,
the pipeline exports at most one sample per Dimensional Key — the
claim-level keys of the exported samples are pairwise distinct.  (The
first row with a non-empty value column claims a key; it is exported
only when its extracted value is non-negative, so a key may also yield
zero samples; it never yields two.) -/
theorem c1_amended_at_most_one_export (pf : String → Option ℚ) (cfg : PipelineConfig)
    (insts : List (String × List Row)) (vcol : String)
    (hvc : cfg.valueCol = some vcol)
    (hwf : ∀ p ∈ insts, ∀ r ∈ p.2, (keysOf r).Nodup) :
    (((processRows pf cfg insts).1).map (fun e => claimDimKey vcol e.row)).Nodup := by
  rw [processRows_eq]
  by_cases hvempty : vcol = ""
  · have hoff : ∀ g : List String × List Row,
        (processSchemaGroup pf cfg.valueCol g.1 g.2).exports = [] := by
      intro g
      rw [hvc, hvempty, processSchemaGroup_off pf (some "") g.1 g.2 (Or.inr rfl)]
    simp [hoff]
  · rw [List.map_flatten]
    apply List.nodup_flatten.mpr
    constructor
    · intro l hl
      rw [List.map_map] at hl
      rcases List.mem_map.mp hl with ⟨g, hg, hgl⟩
      rw [← hgl]
      unfold List.Nodup
      rw [Function.comp_def, List.pairwise_map]
      obtain ⟨-, hnodup, -, -, -⟩ :=
        processSchemaGroup_inv pf vcol hvempty g.1 g.2
      unfold List.Nodup at hnodup
      rw [List.pairwise_map] at hnodup
      rw [hvc]
      rw [hvc] at hgl
      apply List.Pairwise.imp_of_mem ?_ hnodup
      intro e₁ e₂ he₁ he₂ hne hceq
      obtain ⟨hsig₁, hnd₁, hvk₁⟩ :=
        export_row_facts pf cfg insts vcol hwf hvempty g hg e₁ he₁
      obtain ⟨hsig₂, hnd₂, hvk₂⟩ :=
        export_row_facts pf cfg insts vcol hwf hvempty g hg e₂ he₂
      obtain ⟨-, hukeq⟩ := claimDimKey_eq_implies vcol e₁.row e₂.row hnd₁ hnd₂ hvk₁ hvk₂ hceq
      rw [hsig₁, hsig₂] at hukeq
      exact hne hukeq
    · rw [List.map_map, List.pairwise_map]
      have hfst := (groupBySchema_inv (filteredRowsOf cfg (poolInstanceRows insts))).1
      unfold List.Nodup at hfst
      rw [List.pairwise_map] at hfst
      apply List.Pairwise.imp_of_mem ?_ hfst
      intro g₁ g₂ hg₁ hg₂ hne
      rw [List.disjoint_left]
      intro a ha₁ ha₂
      rw [Function.comp_def] at ha₁ ha₂
      rcases List.mem_map.mp ha₁ with ⟨e₁, he₁, hae₁⟩
      rcases List.mem_map.mp ha₂ with ⟨e₂, he₂, hae₂⟩
      rw [hvc] at he₁ he₂
      obtain ⟨hsig₁, hnd₁, hvk₁⟩ :=
        export_row_facts pf cfg insts vcol hwf hvempty g₁ hg₁ e₁ he₁
      obtain ⟨hsig₂, hnd₂, hvk₂⟩ :=
        export_row_facts pf cfg insts vcol hwf hvempty g₂ hg₂ e₂ he₂
      obtain ⟨hsigeq, -⟩ := claimDimKey_eq_implies vcol e₁.row e₂.row hnd₁ hnd₂ hvk₁ hvk₂
        (hae₁.trans hae₂.symm)
      exact hne ((hsig₁.symm.trans hsigeq).trans hsig₂)

/-! ## Claim C7: the effective-date chain -/

/-- C7 counterexample: a row with no date column, no processing-date
column and an empty segment start date does *not* receive the instance's
processing date as its effective date — line 1053 resets the
`processing_date` variable to `""` before the dedup loop runs, so the
exported sample carries the empty date, not `"2026-01-05"`. -/
theorem c7_counterexample :
    (processRows cexParseFloat cexCfg [("2026-01-05", [cexRowA])]).1.map
        (fun e => e.dateVal) = [""] ∧
    specDateVal "2026-01-05" cexRowA = "2026-01-05" ∧
    ("" : String) ≠ "2026-01-05" := by
  refine ⟨by decide, by decide, by decide⟩

/-- C7 amended: the effective date is the first non-empty value among
the row's `Date` column, its `Processing Date` column and the
originating segment's start date, stripped and truncated to the first
10 characters; the instance-processing-date fallback is inert (the
variable holding it is always the empty string at this point), so a row
whose three sources are all missing or empty receives the empty string
as its effective date; and every exported sample carries exactly this
effective date for its row. -/
theorem c7_amended_effective_date (r : Row) :
    (dateValOfRow r =
      (pyStrip (pyOrOpt (getCol r "Date") (pyOrOpt (getCol r "Processing Date")
        (pyOrOpt (getCol r "__segment_start") "")))).take 10) ∧
    ((getCol r "Date" = none ∨ getCol r "Date" = some "") →
      (getCol r "Processing Date" = none ∨ getCol r "Processing Date" = some "") →
      (getCol r "__segment_start" = none ∨ getCol r "__segment_start" = some "") →
      dateValOfRow r = "") ∧
    (∀ (pf : String → Option ℚ) (cfg : PipelineConfig)
        (insts : List (String × List Row)),
      ∀ e ∈ (processRows pf cfg insts).1, e.dateVal = dateValOfRow e.row) := by
  refine ⟨rfl, ?_, ?_⟩
  · intro h1 h2 h3
    unfold dateValOfRow dateValOf
    rcases h1 with h1 | h1 <;> rcases h2 with h2 | h2 <;> rcases h3 with h3 | h3 <;>
      rw [h1, h2, h3] <;> rfl
  · intro pf cfg insts e he
    rw [processRows_eq] at he
    rcases List.mem_flatten.mp he with ⟨l, hl, hel⟩
    rcases List.mem_map.mp hl with ⟨g, hg, hgl⟩
    rw [← hgl] at hel
    cases hvc : cfg.valueCol with
    | none =>
      rw [hvc, processSchemaGroup_off pf none _ _ (Or.inl rfl)] at hel
      simp at hel
    | some vcol =>
      by_cases hvempty : vcol = ""
      · rw [hvc, hvempty, processSchemaGroup_off pf (some "") _ _ (Or.inr rfl)] at hel
        simp at hel
      · rw [hvc] at hel
        obtain ⟨hexp, -, -, -, -⟩ := processSchemaGroup_inv pf vcol hvempty g.1 g.2
        exact (hexp e hel).2.2.2

/-- C7 witness: a concrete row with all three date sources empty gets
the empty effective date, and a concrete exported sample carries its
row's effective date. -/
theorem c7_witness :
    dateValOfRow cexRowA = "" ∧
    ∀ e ∈ (processRows cexParseFloat cexCfg [("2026-01-05", [cexRowA])]).1,
      e.dateVal = dateValOfRow e.row :=
  ⟨(c7_amended_effective_date cexRowA).2.1 (Or.inl rfl) (Or.inl rfl) (Or.inl rfl),
    (c7_amended_effective_date cexRowA).2.2 cexParseFloat cexCfg
      [("2026-01-05", [cexRowA])]⟩

/-! ## Claim C10: unparseable values export as zero and are hidden -/

/-- C10: a non-empty value-column string that Python's `float` cannot
parse extracts as `0.0` without raising; since `0` is not negative, the
row IS exported as a stored sample with value `0` (here: a single-row
schema group exports exactly that sample); and the exposition layer
skips entries whose value is not strictly positive, so the zero sample
is never rendered. -/
theorem c10_unparseable_value_zero (pf : String → Option ℚ) (s : String) (r : Row)
    (vcol : String) (sc : List String)
    (hs : s ≠ "") (hp : pf (pyCleanNumber s) = none)
    (hvcol : ¬ vcol = "") (hr : getCol r vcol = some s) :
    extractNumber pf (some s) = 0 ∧
    (processSchemaGroup pf (some vcol) sc [r]).exports = [⟨r, 0, dateValOfRow r⟩] ∧
    promValueIncluded 0 = false := by
  have hext : extractNumber pf (some s) = 0 := by
    unfold extractNumber
    dsimp only
    rw [if_neg hs, hp]
  refine ⟨hext, ?_, by decide⟩
  unfold processSchemaGroup
  rw [List.foldl_cons, List.foldl_nil]
  unfold processGroupStep
  dsimp only
  rw [if_neg hvcol, hr]
  dsimp only
  rw [if_neg hs, if_neg (List.not_mem_nil _), hext, if_neg (lt_irrefl (0 : ℚ))]
  rfl

/-- C10 witness: a concrete unparseable value `"N/A"` exports as a
stored zero sample that the exposition filter then hides. -/
theorem c10_witness :
    extractNumber (fun _ => none) (some "N/A") = 0 ∧
    (processSchemaGroup (fun _ => none) (some "Counts")
        (schemaSig [("Counts", "N/A")]) [[("Counts", "N/A")]]).exports =
      [⟨[("Counts", "N/A")], 0, dateValOfRow [("Counts", "N/A")]⟩] ∧
    promValueIncluded 0 = false :=
  c10_unparseable_value_zero (fun _ => none) "N/A" [("Counts", "N/A")] "Counts"
    (schemaSig [("Counts", "N/A")]) (by decide) rfl (by decide) rfl

/-! ## Remaining claim instantiations -/

/-- C1 counterexample: two pooled rows share the same Dimensional Key,
yet the pipeline exports zero samples for that key — not exactly one.
The first-seen row's value is negative: it claims the key and is
dropped, and the second row with the same key is then suppressed as a
duplicate, so the claimed "exactly one sample per duplicated key" fails
(as does "the first-seen row is exported"). -/
theorem c1_counterexample :
    claimDimKey "Counts" cexRowNeg = claimDimKey "Counts" cexRowPos ∧
    cexRowNeg ≠ cexRowPos ∧
    poolInstanceRows [("", [cexRowNeg, cexRowPos])] = [cexRowNeg, cexRowPos] ∧
    (processRows cexParseFloat cexCfg [("", [cexRowNeg, cexRowPos])]).1 = [] ∧
    (processRows cexParseFloat cexCfg [("", [cexRowNeg, cexRowPos])]).2 = [cexRowPos] := by
  refine ⟨by decide, by decide, by decide, by decide, by decide⟩

/-- C1 witness: on a concrete two-row input with distinct keys the
pipeline's exports have pairwise-distinct Dimensional Keys. -/
theorem c1_witness :
    (((processRows cexParseFloat cexCfg [("", [cexRowA, cexRowB])]).1).map
      (fun e => claimDimKey "Counts" e.row)).Nodup :=
  c1_amended_at_most_one_export cexParseFloat cexCfg [("", [cexRowA, cexRowB])]
    "Counts" rfl (by decide)

/-- C2 counterexample: the global full-row pooling dedup can suppress a
row of a DIFFERENT schema signature.  `cexRowPool1` and `cexRowPool2`
have different non-metadata column sets, yet both render to the
`|`-joined full-row key `Counts=5|a=1|b=2|c=3` (the value `2|c=3`
embeds a separator), so pooling keeps only the first and the second
never reaches the schema groups or the exports. -/
theorem c2_counterexample :
    rowIdentKey cexRowPool1 = rowIdentKey cexRowPool2 ∧
    schemaSig cexRowPool1 ≠ schemaSig cexRowPool2 ∧
    poolInstanceRows [("", [cexRowPool1, cexRowPool2])] = [cexRowPool1] ∧
    ((processRows cexParseFloat cexCfg [("", [cexRowPool1, cexRowPool2])]).1).map
      (fun e => e.row) = [cexRowPool1] := by
  refine ⟨by decide, by decide, by decide, by decide⟩

/-- C2 witness: with two colliding-but-different-schema rows and one
genuine duplicate, the suppressed row's key was claimed by a row of its
own schema signature. -/
theorem c2_witness :
    ∃ c ∈ filteredRowsOf cexCfg
        (poolInstanceRows [("", [cexRowColl1, cexRowColl2, cexRowColl3])]),
      schemaSig c = schemaSig cexRowColl3 ∧ HasValue "Counts" c ∧
      uniqueKeyOf "Counts" (schemaSig cexRowColl3) c =
        uniqueKeyOf "Counts" (schemaSig cexRowColl3) cexRowColl3 :=
  (c2_schema_isolation cexParseFloat cexCfg
    [("", [cexRowColl1, cexRowColl2, cexRowColl3])] "Counts" rfl).2.2.2.1
    cexRowColl3 (by decide)

/-- C5 witness: a concrete exported sample has a non-empty value column
and a non-negative value. -/
theorem c5_witness :
    (∃ c v, cexCfg.valueCol = some c ∧ c ≠ "" ∧
      getCol (⟨cexRowA, 5, ""⟩ : ExportItem).row c = some v ∧ v ≠ "" ∧
      (⟨cexRowA, 5, ""⟩ : ExportItem).value = extractNumber cexParseFloat (some v)) ∧
    (0 : ℚ) ≤ (⟨cexRowA, 5, ""⟩ : ExportItem).value :=
  c5_empty_negative_suppression cexParseFloat cexCfg [("", [cexRowA])]
    ⟨cexRowA, 5, ""⟩ (by decide)

end AppStoreExporter
